import Mathlib

/-!
Shallow embedding of the narrative beat sequencer (`SequenceRunner` and its
thirteen beat variants) from the repository source file that defines
`CameraMoveBeat`, `WaitBeat`, `TextBubbleBeat`, `ReactionBeat`,
`ShowChoiceBeat`, `ShowStoryBeat`, `FadeBeat`, `FreeRoamBeat`,
`SceneSwapBeat`, `InteractionBeat`, `OverlayBeat`, `CustomCallbackBeat`,
`KeyPromptBeat` and `SequenceRunner`.

Modelling conventions:
* Times (dt, duration, elapsed) are rationals; the arithmetic the source
  performs on them (+, /, min, comparisons, the easing polynomials) is exact
  in this range, so rationals are a faithful stand-in for JS numbers here.
* Mutable shared state that the claims observe is collected in `World`:
  the camera position and look-at target, the list of DOM node ids inside
  the "level-ui" container, a fresh-id counter for created DOM nodes, and
  the game-state string set through `ctx.setGameState`.
* Purely presentational side effects (CSS positioning of the bubble, the
  opacity fade, canvas drawing of the reaction sprite, the styles of the fade overlay, prompt texts) do not feed back into any control flow or claimed
  state and are not modelled.  External callbacks (`ctx.onShowChoice`,
  `ctx.onShowStory`, the level callback table, `enableFreeRoam`, ...) are
  modelled as not mutating the runner, matching the ownership boundary the
  source assumes (callbacks never re-enter the runner).
* The external interaction system invoking the closure passed to
  `enableInteraction` is observationally the same mutation as a forwarded
  "interaction" signal (both set `waiting = false`), so external events are
  modelled by the `signal` operation.
* Every call that the runner makes into a beat is recorded in an event
  trace (`Ev`), so lifecycle claims (start/finish exactly once, signal
  delivery, completion callback) are statements about traces.
-/

structure Vec3 where
  x : ℚ
  y : ℚ
  z : ℚ
  deriving DecidableEq, Repr

def Vec3.lerp (a b : Vec3) (t : ℚ) : Vec3 :=
  ⟨a.x + (b.x - a.x) * t, a.y + (b.y - a.y) * t, a.z + (b.z - a.z) * t⟩

def Vec3.dist2 (a b : Vec3) : ℚ :=
  (a.x - b.x) * (a.x - b.x) + (a.y - b.y) * (a.y - b.y) + (a.z - b.z) * (a.z - b.z)

/-- JS `v || d` for an optional numeric field: `undefined` and `0` are falsy,
so an explicitly supplied `0` is replaced by the default. -/
def jsOrQ : Option ℚ → ℚ → ℚ
  | none, d => d
  | some x, d => if x = 0 then d else x

/-- JS `v || d` for an optional string field: `undefined` and `""` are falsy. -/
def jsOrStr : Option String → String → String
  | none, d => d
  | some s, d => if s = "" then d else s

/-- JS `data.targetId || null`. -/
def jsIdOrNull : Option String → Option String
  | none => none
  | some s => if s = "" then none else some s

/-- The `EASINGS` table keys. -/
inductive Easing where
  | linear
  | inCubic
  | outCubic
  | inOutCubic
  | outBack
  deriving DecidableEq, Repr

/-- The easing functions from the `EASINGS` table. -/
def Easing.apply : Easing → ℚ → ℚ
  | .linear, t => t
  | .inCubic, t => t * t * t
  | .outCubic, t => 1 - (1 - t) ^ 3
  | .inOutCubic, t => if t < 0.5 then 4 * t * t * t else 1 - (-2 * t + 2) ^ 3 / 2
  | .outBack, t => 1 + (1.70158 + 1) * (t - 1) ^ 3 + 1.70158 * (t - 1) ^ 2

/-- `EASINGS[name]` lookup. -/
def EASINGS : String → Option Easing := fun n =>
  if n = "linear" then some .linear
  else if n = "easeInCubic" then some .inCubic
  else if n = "easeOutCubic" then some .outCubic
  else if n = "easeInOutCubic" then some .inOutCubic
  else if n = "easeOutBack" then some .outBack
  else none

/-- `EASINGS[data.easing] || EASINGS.easeInOutCubic`: a missing or unknown
easing name falls back to ease-in-out-cubic. -/
def easingOf (e : Option String) : Easing :=
  match e with
  | none => .inOutCubic
  | some n => (EASINGS n).getD .inOutCubic

/-- A beat descriptor (one entry of the declarative sequence array).  Only
the fields that feed into modelled behavior appear; `text`, `style`,
`offsetY`, `enterAnimation`, `kind`, `color`, `targetPhase`, `overlayId`,
`action`, `callbackName`, `promptText` only affect presentation and are
omitted.  Vector fields that the source dereferences unconditionally
(`data.from.x` etc.) are plain fields: a JS descriptor lacking them would
throw in the constructor, so the embedding ranges over the descriptors on
which the constructors are defined. -/
structure Desc where
  type : String
  duration : Option ℚ := none
  fromPos : Vec3 := ⟨0, 0, 0⟩
  toPos : Vec3 := ⟨0, 0, 0⟩
  lookAtPos : Vec3 := ⟨0, 0, 0⟩
  easing : Option String := none
  triggerType : Option String := none
  targetId : Option String := none
  targetPosition : Option Vec3 := none
  radius : Option ℚ := none
  key : Option String := none
  deriving DecidableEq, Repr

/-- The shared mutable environment a run observes and mutates. -/
structure World where
  cameraPos : Vec3
  cameraLook : Vec3
  /-- ids of the DOM nodes currently inside the "level-ui" container. -/
  levelUI : List Nat
  /-- fresh id source for DOM nodes created by beats. -/
  nextId : Nat
  /-- last value passed to `ctx.setGameState`. -/
  gameState : Option String
  deriving DecidableEq, Repr

/-- Per-frame external inputs read by `update`: the player position the
level reports through `ctx.level.getPlayerPosition()` (`none` when the
level or the accessor is absent, or while it returns null). -/
structure Env where
  levelPlayerPos : Option Vec3
  deriving DecidableEq, Repr

/-- Runtime state of one beat instance — one constructor per beat class,
carrying exactly the fields of that class that feed into modelled
behavior.  the `element` of `textBubble` is the id of its DOM node (`none`
before `start`); the last field of `reaction` is the sprite scale (x = y). -/
inductive Beat where
  | cameraMove (fromPos toPos lookAtPos : Vec3) (duration : ℚ) (easing : Easing) (elapsed : ℚ)
  | wait (duration elapsed : ℚ)
  | textBubble (duration elapsed : ℚ) (element : Option Nat)
  | reaction (duration elapsed spriteScale : ℚ)
  | showChoice (waiting : Bool)
  | showStory (waiting : Bool)
  | fade (duration elapsed : ℚ)
  | freeRoam (triggerType : String) (targetId : Option String)
      (targetPosition : Option Vec3) (radius : ℚ) (triggered : Bool)
  | sceneSwap
  | interaction (targetId : Option String) (waiting : Bool)
  | overlay
  | customCallback (duration elapsed : ℚ)
  | keyPrompt (key : String) (triggered : Bool)
  deriving DecidableEq, Repr

/-- `new CameraMoveBeat(data)`. -/
def CameraMoveBeat.init (d : Desc) : Beat :=
  .cameraMove d.fromPos d.toPos d.lookAtPos (jsOrQ d.duration 2) (easingOf d.easing) 0

/-- `new WaitBeat(data)`: `this.duration = data.duration || 1.0`. -/
def WaitBeat.init (d : Desc) : Beat :=
  .wait (jsOrQ d.duration 1) 0

/-- `new TextBubbleBeat(data)`. -/
def TextBubbleBeat.init (d : Desc) : Beat :=
  .textBubble (jsOrQ d.duration 3) 0 none

/-- `new ReactionBeat(data)`: `this.duration = data.duration || 1.5`. -/
def ReactionBeat.init (d : Desc) : Beat :=
  .reaction (jsOrQ d.duration 1.5) 0 0

/-- `new ShowChoiceBeat()`. -/
def ShowChoiceBeat.init (_ : Desc) : Beat := .showChoice true

/-- `new ShowStoryBeat()`. -/
def ShowStoryBeat.init (_ : Desc) : Beat := .showStory true

/-- `new FadeBeat(data)` (direction/color only drive overlay styling). -/
def FadeBeat.init (d : Desc) : Beat :=
  .fade (jsOrQ d.duration 1) 0

/-- `new FreeRoamBeat(data)`. -/
def FreeRoamBeat.init (d : Desc) : Beat :=
  .freeRoam (jsOrStr d.triggerType "reach_position") (jsIdOrNull d.targetId)
    d.targetPosition (jsOrQ d.radius 3) false

/-- `new SceneSwapBeat(data)`. -/
def SceneSwapBeat.init (_ : Desc) : Beat := .sceneSwap

/-- `new InteractionBeat(data)`. -/
def InteractionBeat.init (d : Desc) : Beat :=
  .interaction (jsIdOrNull d.targetId) true

/-- `new OverlayBeat(data)`. -/
def OverlayBeat.init (_ : Desc) : Beat := .overlay

/-- `new CustomCallbackBeat(data)`: `this.duration = data.duration || 0`. -/
def CustomCallbackBeat.init (d : Desc) : Beat :=
  .customCallback (jsOrQ d.duration 0) 0

/-- `new KeyPromptBeat(data)`: `this.key = data.key || "A"`. -/
def KeyPromptBeat.init (d : Desc) : Beat :=
  .keyPrompt (jsOrStr d.key "A") false

/-- The `start(ctx)` method of each beat: resets elapsed state and performs the
modelled side effects (snap camera, create the bubble DOM node, create the
sprite at scale 0, set the game state). -/
def Beat.start : Beat → World → Beat × World
  | .cameraMove f t la dur ez _, w =>
      (.cameraMove f t la dur ez 0, { w with cameraPos := f, cameraLook := la })
  | .wait dur _, w => (.wait dur 0, w)
  | .textBubble dur _ _, w =>
      (.textBubble dur 0 (some w.nextId),
        { w with levelUI := w.levelUI ++ [w.nextId], nextId := w.nextId + 1 })
  | .reaction dur _ _, w => (.reaction dur 0 0, w)
  | .showChoice _, w => (.showChoice true, w)
  | .showStory _, w => (.showStory true, w)
  | .fade dur _, w => (.fade dur 0, w)
  | .freeRoam tt tid tp r _, w =>
      (.freeRoam tt tid tp r false, { w with gameState := some "level_freeroam" })
  | .sceneSwap, w => (.sceneSwap, w)
  | .interaction tid _, w =>
      (.interaction tid true, { w with gameState := some "level_freeroam" })
  | .overlay, w => (.overlay, w)
  | .customCallback dur _, w => (.customCallback dur 0, w)
  | .keyPrompt k _, w => (.keyPrompt k false, { w with gameState := some "level_sequence" })

/-- The `update(dt, ctx)` method of each beat: returns the mutated beat, the
mutated world, and the `done` boolean the method returns.  For `freeRoam`
the source compares `playerPos.distanceTo(target) < radius`; since the
distance is a square root, the comparison is embedded in the equivalent
square-free form `dist2 < radius * radius && 0 <= radius`. -/
def Beat.update : Beat → ℚ → Env → World → Beat × World × Bool
  | .cameraMove f t la dur ez el, dt, _, w =>
      let el' := el + dt
      let tf := min (el' / dur) 1
      let et := ez.apply tf
      (.cameraMove f t la dur ez el',
        { w with cameraPos := Vec3.lerp f t et, cameraLook := la },
        decide (1 ≤ tf))
  | .wait dur el, dt, _, w =>
      (.wait dur (el + dt), w, decide (dur ≤ el + dt))
  | .textBubble dur el e, dt, _, w =>
      (.textBubble dur (el + dt) e, w, decide (dur ≤ el + dt))
  | .reaction dur el _, dt, _, w =>
      let el' := el + dt
      let s1 : ℚ :=
        if el' < 0.15 then el' / 0.15 * 1.3
        else if el' < 0.3 then 1.3 - (el' - 0.15) / 0.15 * 0.3
        else 1
      let s2 : ℚ := if dur - 0.2 < el' then max 0 ((dur - el') / 0.2) else s1
      (.reaction dur el' s2, w, decide (dur ≤ el'))
  | .showChoice waiting, _, _, w => (.showChoice waiting, w, !waiting)
  | .showStory waiting, _, _, w => (.showStory waiting, w, !waiting)
  | .fade dur el, dt, _, w =>
      (.fade dur (el + dt), w, decide (dur ≤ el + dt))
  | .freeRoam tt tid tp r trig, _, env, w =>
      if trig then (.freeRoam tt tid tp r trig, w, true)
      else
        match tp, env.levelPlayerPos with
        | some target, some pp =>
            if tt = "reach_position" ∧ Vec3.dist2 pp target < r * r ∧ 0 ≤ r then
              (.freeRoam tt tid tp r true, w, true)
            else (.freeRoam tt tid tp r trig, w, false)
        | _, _ => (.freeRoam tt tid tp r trig, w, false)
  | .sceneSwap, _, _, w => (.sceneSwap, w, true)
  | .interaction tid waiting, _, _, w => (.interaction tid waiting, w, !waiting)
  | .overlay, _, _, w => (.overlay, w, true)
  | .customCallback dur el, dt, _, w =>
      (.customCallback dur (el + dt), w, decide (dur ≤ el + dt))
  | .keyPrompt k trig, _, _, w => (.keyPrompt k trig, w, trig)

/-- The `finish(ctx)` method of each beat: releases modelled owned resources
(remove the bubble node if it still has a parent; restore the game state
for the control-handoff beats). -/
def Beat.finish : Beat → World → World
  | .textBubble _ _ e, w =>
      match e with
      | some i => if w.levelUI.elem i then { w with levelUI := w.levelUI.erase i } else w
      | none => w
  | .freeRoam _ _ _ _ _, w => { w with gameState := some "level_sequence" }
  | .interaction _ _, w => { w with gameState := some "level_sequence" }
  | _, w => w

/-- Whether the beat class defines an `onSignal` method (the runner checks
`this.activeBeat.onSignal` before calling it). -/
def Beat.hasOnSignal : Beat → Bool
  | .showChoice _ => true
  | .showStory _ => true
  | .freeRoam _ _ _ _ _ => true
  | .interaction _ _ => true
  | .keyPrompt _ _ => true
  | _ => false

/-- `!this.targetId || (payload && payload.id === this.targetId)`. -/
def matchTarget : Option String → Option String → Bool
  | none, _ => true
  | some t, payload => payload = some t

/-- The `onSignal(eventName, payload)` method of each beat (identity for beats
without one). -/
def Beat.onSignal : Beat → String → Option String → Beat
  | .showChoice waiting, ev, _ =>
      .showChoice (if ev = "choice_made" then false else waiting)
  | .showStory waiting, ev, _ =>
      .showStory (if ev = "story_continue" then false else waiting)
  | .freeRoam tt tid tp r trig, ev, payload =>
      if ev = "interaction" ∧ tt = "interact" ∧ matchTarget tid payload then
        .freeRoam tt tid tp r true
      else .freeRoam tt tid tp r trig
  | .interaction tid waiting, ev, payload =>
      if ev = "interaction" ∧ matchTarget tid payload then .interaction tid false
      else .interaction tid waiting
  | .keyPrompt k trig, ev, _ =>
      if ev = "key_" ++ k.toLower then .keyPrompt k true else .keyPrompt k trig
  | b, _, _ => b

/-- `SequenceRunner.createBeat(data)`: the type-tag switch.  The second
component records whether the default branch fired (`console.warn`).  The
default branch is, as in the source, `new WaitBeat({ duration: 0 })`. -/
def createBeat (d : Desc) : Beat × Bool :=
  if d.type = "camera_move" then (CameraMoveBeat.init d, false)
  else if d.type = "wait" then (WaitBeat.init d, false)
  else if d.type = "text_bubble" then (TextBubbleBeat.init d, false)
  else if d.type = "reaction" then (ReactionBeat.init d, false)
  else if d.type = "show_choice" then (ShowChoiceBeat.init d, false)
  else if d.type = "show_story" then (ShowStoryBeat.init d, false)
  else if d.type = "fade" then (FadeBeat.init d, false)
  else if d.type = "free_roam" then (FreeRoamBeat.init d, false)
  else if d.type = "scene_swap" then (SceneSwapBeat.init d, false)
  else if d.type = "interaction" then (InteractionBeat.init d, false)
  else if d.type = "overlay" then (OverlayBeat.init d, false)
  else if d.type = "custom_callback" then (CustomCallbackBeat.init d, false)
  else if d.type = "key_prompt" then (KeyPromptBeat.init d, false)
  else (WaitBeat.init { type := "wait", duration := some 0 }, true)

/-- Events recorded whenever the runner calls into a beat or fires its
completion callback.  `finished i forced` marks a `finish` call on the beat
made from descriptor `i`: `forced = false` for the natural path inside
`update`, `forced = true` for the `stop()` path.  `warned` records the
`console.warn` diagnostic of the factory default branch. -/
inductive Ev where
  | started (i : Nat)
  | updated (i : Nat)
  | finished (i : Nat) (forced : Bool)
  | signalDelivered (i : Nat) (ev : String)
  | completed
  | warned (tag : String)
  deriving DecidableEq, Repr

/-- `SequenceRunner` fields.  `hasOnComplete` models whether the host has
assigned an `onComplete` callback (`this.onComplete` is set externally);
the callback firing is recorded as the `completed` trace event.  The active
beat is paired with the descriptor index it was created from. -/
structure Runner where
  beats : List Desc
  currentIndex : Nat
  activeBeat : Option (Nat × Beat)
  isRunning : Bool
  hasOnComplete : Bool
  deriving DecidableEq, Repr

/-- `new SequenceRunner()` (with the hosted `onComplete` assignment as a
parameter, since the constructor leaves it null). -/
def Runner.fresh (hc : Bool) : Runner :=
  ⟨[], 0, none, false, hc⟩

/-- A runner together with the shared world and the recorded call trace. -/
structure RState where
  runner : Runner
  world : World
  trace : List Ev
  deriving DecidableEq, Repr

def w0 : World := ⟨⟨0, 0, 0⟩, ⟨0, 0, 0⟩, [], 0, none⟩

def env0 : Env := ⟨none⟩

def initS (hc : Bool) : RState :=
  { runner := Runner.fresh hc, world := w0, trace := [] }

/-- `SequenceRunner.advanceToNext()`. -/
def advanceToNext (s : RState) : RState :=
  let r := s.runner
  if h : r.currentIndex < r.beats.length then
    let d := r.beats.get ⟨r.currentIndex, h⟩
    let cb := createBeat d
    let bw := cb.1.start s.world
    { runner := { r with activeBeat := some (r.currentIndex, bw.1) }
      world := bw.2
      trace := s.trace ++ (if cb.2 then [Ev.warned d.type] else []) ++ [Ev.started r.currentIndex] }
  else
    { runner := { r with isRunning := false }
      world := s.world
      trace := s.trace ++ (if r.hasOnComplete then [Ev.completed] else []) }

/-- `SequenceRunner.start(sequence, context)`.  The context assignment is
implicit: the shared `World` plays the role of the context. -/
def runnerStart (seq : List Desc) (s : RState) : RState :=
  advanceToNext
    { s with runner := { s.runner with beats := seq, currentIndex := 0, isRunning := true } }

/-- `SequenceRunner.update(dt)`. -/
def stepUpdate (dt : ℚ) (env : Env) (s : RState) : RState :=
  match s.runner.activeBeat with
  | none => s
  | some (i, b) =>
      if s.runner.isRunning then
        let bwd := b.update dt env s.world
        let s1 : RState :=
          { runner := { s.runner with activeBeat := some (i, bwd.1) }
            world := bwd.2.1
            trace := s.trace ++ [Ev.updated i] }
        if bwd.2.2 then
          advanceToNext
            { runner := { s1.runner with currentIndex := s.runner.currentIndex + 1 }
              world := bwd.1.finish s1.world
              trace := s1.trace ++ [Ev.finished i false] }
        else s1
      else s

/-- `SequenceRunner.signal(eventName, payload)`. -/
def stepSignal (ev : String) (payload : Option String) (s : RState) : RState :=
  match s.runner.activeBeat with
  | none => s
  | some (i, b) =>
      if b.hasOnSignal then
        { s with
          runner := { s.runner with activeBeat := some (i, b.onSignal ev payload) }
          trace := s.trace ++ [Ev.signalDelivered i ev] }
      else s

/-- `SequenceRunner.stop()`. -/
def stepStop (s : RState) : RState :=
  let wt : World × List Ev :=
    match s.runner.activeBeat with
    | some (i, b) => (b.finish s.world, s.trace ++ [Ev.finished i true])
    | none => (s.world, s.trace)
  { runner := { s.runner with isRunning := false, activeBeat := none }
    world := { wt.1 with levelUI := [] }
    trace := wt.2 }

/-- The operations the host may perform after `start`: per-frame `update`
with its external inputs, an asynchronous `signal`, or `stop`. -/
inductive Op where
  | update (dt : ℚ) (env : Env)
  | signal (ev : String) (payload : Option String)
  | stop
  deriving DecidableEq, Repr

def step (s : RState) : Op → RState
  | .update dt env => stepUpdate dt env s
  | .signal ev payload => stepSignal ev payload s
  | .stop => stepStop s

/-- One whole run: construct the runner, `start` it on `seq`, then perform
`ops` in order. -/
def runSeq (seq : List Desc) (hc : Bool) (ops : List Op) : RState :=
  ops.foldl step (runnerStart seq (initS hc))

/-! ### Trace counting helpers -/

def isStart (i : Nat) : Ev → Bool
  | .started j => j == i
  | _ => false

def isFin (i : Nat) : Ev → Bool
  | .finished j _ => j == i
  | _ => false

def isNatFin : Ev → Bool
  | .finished _ forced => !forced
  | _ => false

def isCompleted : Ev → Bool
  | .completed => true
  | _ => false

def isUpd (i : Nat) : Ev → Bool
  | .updated j => j == i
  | _ => false

def isUpdAny : Ev → Bool
  | .updated _ => true
  | _ => false

def isFinAny : Ev → Bool
  | .finished _ _ => true
  | _ => false

/-- Number of `start` calls recorded for descriptor index `i`. -/
def startCount (tr : List Ev) (i : Nat) : Nat := tr.countP (isStart i)

/-- Number of `finish` calls recorded for descriptor index `i` (natural and
forced together). -/
def finCount (tr : List Ev) (i : Nat) : Nat := tr.countP (isFin i)

/-- Number of natural beat completions (finish calls made from `update`). -/
def natCount (tr : List Ev) : Nat := tr.countP isNatFin

/-- Number of `onComplete` invocations. -/
def compCount (tr : List Ev) : Nat := tr.countP isCompleted

/-- A beat state is signal-inert when its `onSignal` cannot change it. -/
def signalInert (b : Beat) : Prop :=
  ∀ ev payload, b.onSignal ev payload = b

/-! ### The run invariant

`InvB` holds of every state reachable from the initial `start` of `runSeq` by any
mix of `update`, `signal` and `stop` operations.  It ties the runner state
to the recorded trace: the current index counts the natural completions,
the completion callback has fired exactly when the index has passed the end
of the list, a running runner holds the beat of the current index, a
stopped or finished runner holds either no beat or a stale, already
finished, signal-inert beat, and every started index below the current one
has been finished. -/
structure InvB (seq : List Desc) (hc : Bool) (s : RState) : Prop where
  hseq : s.runner.beats = seq
  hhc : s.runner.hasOnComplete = hc
  hidx : s.runner.currentIndex = natCount s.trace
  hle : s.runner.currentIndex ≤ seq.length
  hcomp : compCount s.trace = if hc = true ∧ seq.length ≤ s.runner.currentIndex then 1 else 0
  hrun : s.runner.isRunning = true →
    s.runner.currentIndex < seq.length ∧
      ∃ b, s.runner.activeBeat = some (s.runner.currentIndex, b)
  hstale : s.runner.isRunning = false →
    s.runner.activeBeat = none ∨
      ∃ i b, s.runner.activeBeat = some (i, b) ∧ signalInert b ∧
        i < s.runner.currentIndex ∧ 0 < startCount s.trace i
  hfin_run : s.runner.isRunning = true → ∀ j, s.runner.currentIndex ≤ j → finCount s.trace j = 0
  hfin_end : s.runner.isRunning = false → ∀ j, s.runner.currentIndex < j → finCount s.trace j = 0
  hstart_hi : ∀ j, s.runner.currentIndex < j → startCount s.trace j = 0
  hstart_le : ∀ j, startCount s.trace j ≤ 1
  hstart_cur : s.runner.isRunning = true → 0 < startCount s.trace s.runner.currentIndex
  hfs : ∀ j, 0 < finCount s.trace j → 0 < startCount s.trace j
  hsf_end : s.runner.isRunning = false → ∀ j, 0 < startCount s.trace j → 0 < finCount s.trace j
  hsf_run : s.runner.isRunning = true → ∀ j, 0 < startCount s.trace j →
    0 < finCount s.trace j ∨ j = s.runner.currentIndex

/-- Precondition under which `advanceToNext` re-establishes `InvB`: the
runner is running, the trace is balanced (every start matched by a finish),
no event has been recorded at or above the current index, and the stored
`activeBeat` is absent or stale-and-inert. -/
structure PreAdv (seq : List Desc) (hc : Bool) (s : RState) : Prop where
  hseq : s.runner.beats = seq
  hhc : s.runner.hasOnComplete = hc
  hrun : s.runner.isRunning = true
  hidx : s.runner.currentIndex = natCount s.trace
  hle : s.runner.currentIndex ≤ seq.length
  hcomp0 : compCount s.trace = 0
  hhi : ∀ j, s.runner.currentIndex ≤ j → startCount s.trace j = 0 ∧ finCount s.trace j = 0
  hbal1 : ∀ j, 0 < finCount s.trace j → 0 < startCount s.trace j
  hbal2 : ∀ j, 0 < startCount s.trace j → 0 < finCount s.trace j
  hstart_le : ∀ j, startCount s.trace j ≤ 1
  hact : s.runner.activeBeat = none ∨
    ∃ i b, s.runner.activeBeat = some (i, b) ∧ signalInert b ∧
      i < s.runner.currentIndex ∧ 0 < startCount s.trace i


/-! ### At most one finish per beat, when stop is not issued after the end -/

/-- Each descriptor index receives at most one `finish` call. -/
def InvFin (s : RState) : Prop := ∀ j, finCount s.trace j ≤ 1

/-- `stop()` is only issued while the runner is running or when no beat is
stored — i.e. never after the sequence already ended naturally (in that
state `activeBeat` still points at the last, already finished, beat). -/
def stopsOk : RState → List Op → Bool
  | _, [] => true
  | s, op :: rest =>
      (match op with
       | .stop => s.runner.isRunning || s.runner.activeBeat.isNone
       | _ => true) && stopsOk (step s op) rest


/-! ### Concrete descriptors and helper definitions used by the claims -/

def waitZero : Desc := { type := "wait", duration := some 0 }

def waitOne : Desc := { type := "wait", duration := some 1 }

def bogusDesc : Desc := { type := "bogus" }

def showChoiceDesc : Desc := { type := "show_choice" }

def bubbleDesc : Desc := { type := "text_bubble" }

def cmLinear : Desc :=
  { type := "camera_move", fromPos := ⟨0, 0, 0⟩, toPos := ⟨0, 0, 10⟩,
    lookAtPos := ⟨0, 0, 0⟩, duration := some 2, easing := some "linear" }

def reactionThree : Desc := { type := "reaction", duration := some 3 }

/-- Sprite scale stored in a reaction beat (0 for other beats). -/
def Beat.scaleOf : Beat → ℚ
  | .reaction _ _ sc => sc
  | _ => 0

/-- Scans a trace, carrying the indices already finished, and checks that
every recorded signal delivery went to a beat that had not been finished
yet — the formalization of "the signal reaches only the currently active
(started, not yet finished) beat". -/
def signalsOnlyActive : List Ev → List Nat → Bool
  | [], _ => true
  | Ev.signalDelivered i _ :: rest, fins => !(fins.contains i) && signalsOnlyActive rest fins
  | Ev.finished i _ :: rest, fins => signalsOnlyActive rest (i :: fins)
  | _ :: rest, fins => signalsOnlyActive rest fins

/-- Operations allowed in claim C8 before the completing signal: frame
updates and signals whose event name is not "choice_made". -/
def c8ok : Op → Bool
  | .update _ _ => true
  | .signal ev _ => ev != "choice_made"
  | .stop => false

/-- A freshly constructed runner (with a hosted `onComplete` assignment)
paired with a given world: the comparison point of claim C9. -/
def freshWith (hc : Bool) (w : World) : RState :=
  { runner := Runner.fresh hc, world := w, trace := [] }

/-- The runner state held throughout a `[show_choice]` run before the
completing signal. -/
def R0 (hc : Bool) : Runner :=
  ⟨[showChoiceDesc], 0, some (0, Beat.showChoice true), true, hc⟩


/-! ### Counting lemmas -/

theorem countP_sing (p : Ev → Bool) (e : Ev) : List.countP p [e] = if p e then 1 else 0 := by
  simp [List.countP_cons]

@[simp] theorem startCount_append (tr l : List Ev) (i : Nat) :
    startCount (tr ++ l) i = startCount tr i + startCount l i := by
  simp [startCount, List.countP_append]

@[simp] theorem finCount_append (tr l : List Ev) (i : Nat) :
    finCount (tr ++ l) i = finCount tr i + finCount l i := by
  simp [finCount, List.countP_append]

@[simp] theorem natCount_append (tr l : List Ev) :
    natCount (tr ++ l) = natCount tr + natCount l := by
  simp [natCount, List.countP_append]

@[simp] theorem compCount_append (tr l : List Ev) :
    compCount (tr ++ l) = compCount tr + compCount l := by
  simp [compCount, List.countP_append]

@[simp] theorem startCount_nil (i : Nat) : startCount [] i = 0 := rfl
@[simp] theorem finCount_nil (i : Nat) : finCount [] i = 0 := rfl
@[simp] theorem natCount_nil : natCount [] = 0 := rfl
@[simp] theorem compCount_nil : compCount [] = 0 := rfl

@[simp] theorem startCount_started (i j : Nat) :
    startCount [Ev.started j] i = if j = i then 1 else 0 := by
  simp [startCount, countP_sing, isStart]

@[simp] theorem startCount_updated (i j : Nat) : startCount [Ev.updated j] i = 0 := rfl
@[simp] theorem startCount_finished (i j : Nat) (f : Bool) :
    startCount [Ev.finished j f] i = 0 := rfl
@[simp] theorem startCount_signal (i j : Nat) (v : String) :
    startCount [Ev.signalDelivered j v] i = 0 := rfl
@[simp] theorem startCount_completed (i : Nat) : startCount [Ev.completed] i = 0 := rfl
@[simp] theorem startCount_warned (i : Nat) (t : String) : startCount [Ev.warned t] i = 0 := rfl

@[simp] theorem finCount_finished (i j : Nat) (f : Bool) :
    finCount [Ev.finished j f] i = if j = i then 1 else 0 := by
  simp [finCount, countP_sing, isFin]

@[simp] theorem finCount_started (i j : Nat) : finCount [Ev.started j] i = 0 := rfl
@[simp] theorem finCount_updated (i j : Nat) : finCount [Ev.updated j] i = 0 := rfl
@[simp] theorem finCount_signal (i j : Nat) (v : String) :
    finCount [Ev.signalDelivered j v] i = 0 := rfl
@[simp] theorem finCount_completed (i : Nat) : finCount [Ev.completed] i = 0 := rfl
@[simp] theorem finCount_warned (i : Nat) (t : String) : finCount [Ev.warned t] i = 0 := rfl

@[simp] theorem natCount_finished (j : Nat) (f : Bool) :
    natCount [Ev.finished j f] = if f then 0 else 1 := by
  cases f <;> simp [natCount, countP_sing, isNatFin]

@[simp] theorem natCount_nat (j : Nat) : natCount [Ev.finished j false] = 1 := rfl
@[simp] theorem natCount_forced (j : Nat) : natCount [Ev.finished j true] = 0 := rfl
@[simp] theorem natCount_started (j : Nat) : natCount [Ev.started j] = 0 := rfl
@[simp] theorem natCount_updated (j : Nat) : natCount [Ev.updated j] = 0 := rfl
@[simp] theorem natCount_signal (j : Nat) (v : String) :
    natCount [Ev.signalDelivered j v] = 0 := rfl
@[simp] theorem natCount_completed : natCount [Ev.completed] = 0 := rfl
@[simp] theorem natCount_warned (t : String) : natCount [Ev.warned t] = 0 := rfl

@[simp] theorem compCount_completed : compCount [Ev.completed] = 1 := rfl
@[simp] theorem compCount_started (j : Nat) : compCount [Ev.started j] = 0 := rfl
@[simp] theorem compCount_updated (j : Nat) : compCount [Ev.updated j] = 0 := rfl
@[simp] theorem compCount_finished (j : Nat) (f : Bool) :
    compCount [Ev.finished j f] = 0 := rfl
@[simp] theorem compCount_signal (j : Nat) (v : String) :
    compCount [Ev.signalDelivered j v] = 0 := rfl
@[simp] theorem compCount_warned (t : String) : compCount [Ev.warned t] = 0 := rfl

@[simp] theorem startCount_warnopt (c : Bool) (t : String) (i : Nat) :
    startCount (if c then [Ev.warned t] else []) i = 0 := by cases c <;> rfl

@[simp] theorem finCount_warnopt (c : Bool) (t : String) (i : Nat) :
    finCount (if c then [Ev.warned t] else []) i = 0 := by cases c <;> rfl

@[simp] theorem natCount_warnopt (c : Bool) (t : String) :
    natCount (if c then [Ev.warned t] else []) = 0 := by cases c <;> rfl

@[simp] theorem compCount_warnopt (c : Bool) (t : String) :
    compCount (if c then [Ev.warned t] else []) = 0 := by cases c <;> rfl

@[simp] theorem startCount_comopt (c : Bool) (i : Nat) :
    startCount (if c then [Ev.completed] else []) i = 0 := by cases c <;> rfl

@[simp] theorem finCount_comopt (c : Bool) (i : Nat) :
    finCount (if c then [Ev.completed] else []) i = 0 := by cases c <;> rfl

@[simp] theorem natCount_comopt (c : Bool) :
    natCount (if c then [Ev.completed] else []) = 0 := by cases c <;> rfl

@[simp] theorem compCount_comopt (c : Bool) :
    compCount (if c then [Ev.completed] else []) = if c then 1 else 0 := by cases c <;> rfl

/-! ### Beats that just completed ignore every signal -/

/-- A beat whose `update` just returned done is a fixed point of `onSignal`:
each suspend-style beat reports done only once its flag reached the terminal
value that `onSignal` would set anyway, and the other beats have no handler. -/
theorem update_done_inert (b : Beat) (dt : ℚ) (env : Env) (w : World)
    (h : (b.update dt env w).2.2 = true) : signalInert (b.update dt env w).1 := by
  intro ev payload
  cases b with
  | cameraMove f t la dur ez el => rfl
  | wait dur el => rfl
  | textBubble dur el e => rfl
  | reaction dur el sc => rfl
  | fade dur el => rfl
  | sceneSwap => rfl
  | overlay => rfl
  | customCallback dur el => rfl
  | showChoice waiting =>
      cases waiting
      · simp [Beat.update, Beat.onSignal]
      · simp [Beat.update] at h
  | showStory waiting =>
      cases waiting
      · simp [Beat.update, Beat.onSignal]
      · simp [Beat.update] at h
  | interaction tid waiting =>
      cases waiting
      · simp [Beat.update, Beat.onSignal]
      · simp [Beat.update] at h
  | keyPrompt k trig =>
      cases trig
      · simp [Beat.update] at h
      · simp [Beat.update, Beat.onSignal]
  | freeRoam tt tid tp r trig =>
      simp only [Beat.update] at h ⊢
      by_cases htr : trig = true
      · rw [if_pos htr] at h ⊢
        simp [Beat.onSignal, htr]
      · rw [if_neg htr] at h ⊢
        rcases tp with _ | target
        · simp at h
        · rcases henv : env.levelPlayerPos with _ | pp
          · simp [henv] at h
          · by_cases hc : tt = "reach_position" ∧ Vec3.dist2 pp target < r * r ∧ 0 ≤ r
            · simp [henv, hc] at h ⊢
              simp [Beat.onSignal]
            · simp [henv, hc] at h

theorem adv_inv {seq : List Desc} {hc : Bool} {s : RState}
    (hp : PreAdv seq hc s) : InvB seq hc (advanceToNext s) := by
  by_cases hlt : s.runner.currentIndex < s.runner.beats.length
  · simp only [advanceToNext, dif_pos hlt]
    refine ⟨hp.hseq, hp.hhc, ?_, ?_, ?_, ?_, ?_, ?_, ?_, ?_, ?_, ?_, ?_, ?_, ?_⟩
    · simpa using hp.hidx
    · exact hp.hle
    · have : ¬ (hc = true ∧ seq.length ≤ s.runner.currentIndex) := by
        rintro ⟨-, hge⟩
        rw [hp.hseq] at hlt
        omega
      simpa [this] using hp.hcomp0
    · intro _
      refine ⟨by rw [← hp.hseq]; exact hlt, _, rfl⟩
    · intro hfalse
      rw [hp.hrun] at hfalse
      cases hfalse
    · intro _ j hj
      simp [(hp.hhi j hj).2]
    · intro hfalse
      rw [hp.hrun] at hfalse
      cases hfalse
    · intro j hj
      have h0 : startCount s.trace j = 0 := (hp.hhi j (Nat.le_of_lt hj)).1
      simp [h0, Nat.ne_of_lt hj]
    · intro j
      by_cases hj : s.runner.currentIndex = j
      · have h0 : startCount s.trace j = 0 := (hp.hhi j (Nat.le_of_eq hj)).1
        simp [h0, hj]
      · simpa [hj] using hp.hstart_le j
    · intro _
      simp only [startCount_append, startCount_warnopt, startCount_started,
        eq_self_iff_true, if_true]
      omega
    · intro j hj
      have h1 : 0 < startCount s.trace j := hp.hbal1 j (by simpa using hj)
      by_cases hcur : s.runner.currentIndex = j
      · simp [hcur]
      · simp [hcur]
        omega
    · intro hfalse
      rw [hp.hrun] at hfalse
      cases hfalse
    · intro _ j hj
      by_cases hcur : s.runner.currentIndex = j
      · exact Or.inr hcur.symm
      · left
        have hj' : 0 < startCount s.trace j := by simpa [hcur] using hj
        simpa using hp.hbal2 j hj'
  · simp only [advanceToNext, dif_neg hlt]
    have heq : s.runner.currentIndex = seq.length := by
      have := hp.hle
      rw [hp.hseq] at hlt
      omega
    refine ⟨hp.hseq, hp.hhc, ?_, ?_, ?_, ?_, ?_, ?_, ?_, ?_, ?_, ?_, ?_, ?_, ?_⟩
    · simpa using hp.hidx
    · exact hp.hle
    · have hhc' := hp.hhc
      simp [hp.hcomp0, hhc', heq]
    · intro hfalse
      cases hfalse
    · intro _
      rcases hp.hact with hnone | ⟨i, b, hab, hin, hilt, hst⟩
      · exact Or.inl hnone
      · exact Or.inr ⟨i, b, hab, hin, hilt, by simpa using hst⟩
    · intro htrue
      cases htrue
    · intro _ j hj
      simp [(hp.hhi j (Nat.le_of_lt hj)).2]
    · intro j hj
      simp [(hp.hhi j (Nat.le_of_lt hj)).1]
    · intro j
      simpa using hp.hstart_le j
    · intro htrue
      cases htrue
    · intro j hj
      simpa using hp.hbal1 j (by simpa using hj)
    · intro _ j hj
      simpa using hp.hbal2 j (by simpa using hj)
    · intro htrue
      cases htrue

theorem invB_init (seq : List Desc) (hc : Bool) : InvB seq hc (runnerStart seq (initS hc)) := by
  apply adv_inv
  exact ⟨rfl, rfl, rfl, rfl, Nat.zero_le _, rfl, fun _ _ => ⟨rfl, rfl⟩,
    fun _ h => absurd h (Nat.lt_irrefl 0), fun _ h => absurd h (Nat.lt_irrefl 0),
    fun _ => Nat.zero_le _, Or.inl rfl⟩

theorem invB_signal {seq : List Desc} {hc : Bool} {s : RState}
    (hinv : InvB seq hc s) (ev : String) (p : Option String) :
    InvB seq hc (stepSignal ev p s) := by
  rcases hab : s.runner.activeBeat with _ | ⟨i, b⟩
  · simpa [stepSignal, hab] using hinv
  · by_cases hsig : b.hasOnSignal = true
    · simp only [stepSignal, hab, hsig, if_true]
      refine ⟨hinv.hseq, hinv.hhc, by simpa using hinv.hidx, hinv.hle,
        by simpa using hinv.hcomp, ?_, ?_, ?_, ?_, ?_, ?_, ?_, ?_, ?_, ?_⟩
      · intro h
        obtain ⟨hlt, b', hab'⟩ := hinv.hrun h
        rw [hab] at hab'
        obtain ⟨hi, -⟩ : i = s.runner.currentIndex ∧ b = b' := by simpa using hab'
        exact ⟨hlt, b.onSignal ev p, by rw [hi]⟩
      · intro h
        rcases hinv.hstale h with hnone | ⟨i', b', hab', hin, hilt, hstc⟩
        · rw [hab] at hnone
          cases hnone
        · rw [hab] at hab'
          obtain ⟨hi, hb⟩ : i = i' ∧ b = b' := by simpa using hab'
          right
          refine ⟨i, b.onSignal ev p, rfl, ?_, ?_, ?_⟩
          · have hinb : signalInert b := by rw [hb]; exact hin
            rw [hinb ev p]
            exact hinb
          · rw [hi]
            exact hilt
          · simpa [hi] using hstc
      · intro h j hj
        simpa using hinv.hfin_run h j hj
      · intro h j hj
        simpa using hinv.hfin_end h j hj
      · intro j hj
        simpa using hinv.hstart_hi j hj
      · intro j
        simpa using hinv.hstart_le j
      · intro h
        simpa using hinv.hstart_cur h
      · intro j hj
        simpa using hinv.hfs j (by simpa using hj)
      · intro h j hj
        simpa using hinv.hsf_end h j (by simpa using hj)
      · intro h j hj
        simpa using hinv.hsf_run h j (by simpa using hj)
    · simpa [stepSignal, hab, hsig] using hinv

theorem invB_stop {seq : List Desc} {hc : Bool} {s : RState}
    (hinv : InvB seq hc s) : InvB seq hc (stepStop s) := by
  rcases hab : s.runner.activeBeat with _ | ⟨i, b⟩
  · simp only [stepStop, hab]
    have hrun0 : s.runner.isRunning = false := by
      cases hr : s.runner.isRunning
      · rfl
      · obtain ⟨-, b', hab'⟩ := hinv.hrun hr
        rw [hab] at hab'
        cases hab'
    refine ⟨hinv.hseq, hinv.hhc, hinv.hidx, hinv.hle, hinv.hcomp, ?_, ?_, ?_, ?_,
      hinv.hstart_hi, hinv.hstart_le, ?_, hinv.hfs, ?_, ?_⟩
    · intro h
      cases h
    · intro _
      exact Or.inl rfl
    · intro h
      cases h
    · intro _ j hj
      exact hinv.hfin_end hrun0 j hj
    · intro h
      cases h
    · intro _ j hj
      exact hinv.hsf_end hrun0 j hj
    · intro h
      cases h
  · simp only [stepStop, hab]
    cases hrun0 : s.runner.isRunning with
    | true =>
        obtain ⟨hlt, b', hab'⟩ := hinv.hrun hrun0
        rw [hab] at hab'
        obtain ⟨hi, -⟩ : i = s.runner.currentIndex ∧ b = b' := by simpa using hab'
        refine ⟨hinv.hseq, hinv.hhc, by simpa using hinv.hidx, hinv.hle,
          by simpa using hinv.hcomp, ?_, ?_, ?_, ?_, ?_, ?_, ?_, ?_, ?_, ?_⟩
        · intro h
          cases h
        · intro _
          exact Or.inl rfl
        · intro h
          cases h
        · intro _ j hj
          have hj2 : s.runner.currentIndex < j := hj
          have h0 : finCount s.trace j = 0 := hinv.hfin_run hrun0 j (Nat.le_of_lt hj2)
          have hne : i ≠ j := by omega
          simp [h0, hne]
        · intro j hj
          simpa using hinv.hstart_hi j hj
        · intro j
          simpa using hinv.hstart_le j
        · intro h
          cases h
        · intro j hj
          by_cases hji : j = i
          · subst hji
            have := hinv.hstart_cur hrun0
            simpa [hi] using this
          · have hij : i ≠ j := Ne.symm hji
            have hj2 : 0 < finCount s.trace j := by
              simpa [hij] using hj
            simpa using hinv.hfs j hj2
        · intro _ j hj
          have hj2 : 0 < startCount s.trace j := by simpa using hj
          rcases hinv.hsf_run hrun0 j hj2 with hf | hcur
          · by_cases hij : i = j
            · simp only [finCount_append, finCount_finished, hij, eq_self_iff_true, if_true]
              omega
            · simp only [finCount_append, finCount_finished, if_neg hij]
              omega
          · have hij : i = j := by omega
            simp only [finCount_append, finCount_finished, hij, eq_self_iff_true, if_true]
            omega
        · intro h
          cases h
    | false =>
        rcases hinv.hstale hrun0 with hnone | ⟨i', b', hab', hin, hilt, hstc⟩
        · rw [hab] at hnone
          cases hnone
        · rw [hab] at hab'
          obtain ⟨hi, -⟩ : i = i' ∧ b = b' := by simpa using hab'
          refine ⟨hinv.hseq, hinv.hhc, by simpa using hinv.hidx, hinv.hle,
            by simpa using hinv.hcomp, ?_, ?_, ?_, ?_, ?_, ?_, ?_, ?_, ?_, ?_⟩
          · intro h
            cases h
          · intro _
            exact Or.inl rfl
          · intro h
            cases h
          · intro _ j hj
            have hj2 : s.runner.currentIndex < j := hj
            have h0 : finCount s.trace j = 0 := hinv.hfin_end hrun0 j hj2
            have hne : i ≠ j := by omega
            simp [h0, hne]
          · intro j hj
            simpa using hinv.hstart_hi j hj
          · intro j
            simpa using hinv.hstart_le j
          · intro h
            cases h
          · intro j hj
            by_cases hji : j = i
            · subst hji
              simpa [hi] using hstc
            · have hij : i ≠ j := Ne.symm hji
              have hj2 : 0 < finCount s.trace j := by
                simpa [hij] using hj
              simpa using hinv.hfs j hj2
          · intro _ j hj
            have hj2 : 0 < startCount s.trace j := by simpa using hj
            have hfin := hinv.hsf_end hrun0 j hj2
            by_cases hij : i = j
            · simp only [finCount_append, finCount_finished, hij, eq_self_iff_true, if_true]
              omega
            · simp only [finCount_append, finCount_finished, if_neg hij]
              omega
          · intro h
            cases h

theorem invB_update {seq : List Desc} {hc : Bool} {s : RState}
    (hinv : InvB seq hc s) (dt : ℚ) (env : Env) :
    InvB seq hc (stepUpdate dt env s) := by
  rcases hab : s.runner.activeBeat with _ | ⟨i, b⟩
  · simpa [stepUpdate, hab] using hinv
  · cases hrun0 : s.runner.isRunning with
    | false => simpa [stepUpdate, hab, hrun0] using hinv
    | true =>
        obtain ⟨hlt, b', hab'⟩ := hinv.hrun hrun0
        rw [hab] at hab'
        obtain ⟨hi, -⟩ : i = s.runner.currentIndex ∧ b = b' := by simpa using hab'
        cases hdone : (b.update dt env s.world).2.2 with
        | false =>
            simp only [stepUpdate, hab, hrun0, if_true, hdone, if_false, Bool.false_eq_true]
            refine ⟨hinv.hseq, hinv.hhc, by simpa using hinv.hidx, hinv.hle,
              by simpa using hinv.hcomp, ?_, ?_, ?_, ?_, ?_, ?_, ?_, ?_, ?_, ?_⟩
            · intro _
              exact ⟨hlt, (b.update dt env s.world).1, by rw [hi]⟩
            · intro h
              simp at h
            · intro _ j hj
              have hj2 : s.runner.currentIndex ≤ j := hj
              simpa using hinv.hfin_run hrun0 j hj2
            · intro h
              simp at h
            · intro j hj
              have hj2 : s.runner.currentIndex < j := hj
              simpa using hinv.hstart_hi j hj2
            · intro j
              simpa using hinv.hstart_le j
            · intro _
              simpa using hinv.hstart_cur hrun0
            · intro j hj
              simpa using hinv.hfs j (by simpa using hj)
            · intro h
              simp at h
            · intro _ j hj
              simpa using hinv.hsf_run hrun0 j (by simpa using hj)
        | true =>
            have hcomp0 : compCount s.trace = 0 := by
              rw [hinv.hcomp, if_neg]
              rintro ⟨-, hge⟩
              omega
            simp only [stepUpdate, hab, hrun0, if_true, hdone]
            apply adv_inv
            refine ⟨hinv.hseq, hinv.hhc, rfl, ?_, ?_, ?_, ?_, ?_, ?_, ?_, ?_⟩
            · show s.runner.currentIndex + 1 = _
              simp only [natCount_append, natCount_updated, natCount_nat]
              have := hinv.hidx
              omega
            · show s.runner.currentIndex + 1 ≤ seq.length
              omega
            · show compCount ((s.trace ++ [Ev.updated i]) ++ [Ev.finished i false]) = 0
              simp only [compCount_append, compCount_updated, compCount_finished]
              omega
            · intro j hj
              have hj2 : s.runner.currentIndex + 1 ≤ j := hj
              have hne : i ≠ j := by omega
              constructor
              · have h0 : startCount s.trace j = 0 := hinv.hstart_hi j (by omega)
                simp only [startCount_append, startCount_updated, startCount_finished]
                omega
              · have h0 : finCount s.trace j = 0 := hinv.hfin_run hrun0 j (by omega)
                simp only [finCount_append, finCount_updated, finCount_finished, if_neg hne]
                omega
            · intro j hj
              by_cases hij : i = j
              · have hsc := hinv.hstart_cur hrun0
                have h2 : 0 < startCount s.trace j := by
                  rw [← hij, hi]
                  exact hsc
                simp only [startCount_append, startCount_updated, startCount_finished]
                omega
              · simp only [finCount_append, finCount_updated, finCount_finished,
                  if_neg hij, Nat.add_zero] at hj
                have h2 := hinv.hfs j hj
                simp only [startCount_append, startCount_updated, startCount_finished]
                omega
            · intro j hj
              simp only [startCount_append, startCount_updated, startCount_finished,
                Nat.add_zero] at hj
              rcases hinv.hsf_run hrun0 j hj with hf | hcur
              · by_cases hij : i = j
                · simp only [finCount_append, finCount_updated, finCount_finished, if_pos hij]
                  omega
                · simp only [finCount_append, finCount_updated, finCount_finished, if_neg hij]
                  omega
              · have hij : i = j := by omega
                simp only [finCount_append, finCount_updated, finCount_finished, if_pos hij]
                omega
            · intro j
              have := hinv.hstart_le j
              simp only [startCount_append, startCount_updated, startCount_finished]
              omega
            · right
              refine ⟨i, (b.update dt env s.world).1, rfl,
                update_done_inert b dt env s.world hdone, ?_, ?_⟩
              · show i < s.runner.currentIndex + 1
                omega
              · have hsc := hinv.hstart_cur hrun0
                have h2 : 0 < startCount s.trace i := by
                  rw [hi]
                  exact hsc
                simp only [startCount_append, startCount_updated, startCount_finished]
                omega

theorem invB_steps {seq : List Desc} {hc : Bool} :
    ∀ (ops : List Op) (s : RState), InvB seq hc s → InvB seq hc (ops.foldl step s)
  | [], _, h => h
  | op :: rest, s, h => by
      refine invB_steps rest (step s op) ?_
      cases op with
      | update dt env => exact invB_update h dt env
      | signal ev p => exact invB_signal h ev p
      | stop => exact invB_stop h

/-- The invariant holds at the end of every run. -/
theorem invB_run (seq : List Desc) (hc : Bool) (ops : List Op) :
    InvB seq hc (runSeq seq hc ops) :=
  invB_steps ops _ (invB_init seq hc)

theorem adv_finCount (s : RState) (j : Nat) :
    finCount (advanceToNext s).trace j = finCount s.trace j := by
  by_cases hlt : s.runner.currentIndex < s.runner.beats.length
  · simp [advanceToNext, dif_pos hlt]
  · simp [advanceToNext, dif_neg hlt]

theorem invFin_update {seq : List Desc} {hc : Bool} {s : RState}
    (hB : InvB seq hc s) (hf : InvFin s) (dt : ℚ) (env : Env) :
    InvFin (stepUpdate dt env s) := by
  intro j
  rcases hab : s.runner.activeBeat with _ | ⟨i, b⟩
  · simpa [stepUpdate, hab] using hf j
  · cases hrun0 : s.runner.isRunning with
    | false => simpa [stepUpdate, hab, hrun0] using hf j
    | true =>
        obtain ⟨hlt, b', hab'⟩ := hB.hrun hrun0
        rw [hab] at hab'
        obtain ⟨hi, -⟩ : i = s.runner.currentIndex ∧ b = b' := by simpa using hab'
        cases hdone : (b.update dt env s.world).2.2 with
        | false =>
            simp only [stepUpdate, hab, hrun0, if_true, hdone, if_false, Bool.false_eq_true]
            simp only [finCount_append, finCount_updated, Nat.add_zero]
            exact hf j
        | true =>
            simp only [stepUpdate, hab, hrun0, if_true, hdone]
            rw [adv_finCount]
            show finCount ((s.trace ++ [Ev.updated i]) ++ [Ev.finished i false]) j ≤ 1
            by_cases hij : i = j
            · have h0 : finCount s.trace j = 0 := hB.hfin_run hrun0 j (by omega)
              simp only [finCount_append, finCount_updated, finCount_finished, if_pos hij]
              omega
            · simp only [finCount_append, finCount_updated, finCount_finished, if_neg hij]
              have := hf j
              omega

theorem invFin_signal {s : RState} (hf : InvFin s) (ev : String) (p : Option String) :
    InvFin (stepSignal ev p s) := by
  intro j
  rcases hab : s.runner.activeBeat with _ | ⟨i, b⟩
  · simpa [stepSignal, hab] using hf j
  · by_cases hsig : b.hasOnSignal = true
    · simp only [stepSignal, hab, hsig, if_true]
      simp only [finCount_append, finCount_signal, Nat.add_zero]
      exact hf j
    · simpa [stepSignal, hab, hsig] using hf j

theorem invFin_stop {seq : List Desc} {hc : Bool} {s : RState}
    (hB : InvB seq hc s) (hf : InvFin s)
    (hok : (s.runner.isRunning || s.runner.activeBeat.isNone) = true) :
    InvFin (stepStop s) := by
  intro j
  rcases hab : s.runner.activeBeat with _ | ⟨i, b⟩
  · simpa [stepStop, hab] using hf j
  · have hrun0 : s.runner.isRunning = true := by simpa [hab] using hok
    obtain ⟨hlt, b', hab'⟩ := hB.hrun hrun0
    rw [hab] at hab'
    obtain ⟨hi, -⟩ : i = s.runner.currentIndex ∧ b = b' := by simpa using hab'
    simp only [stepStop, hab]
    show finCount (s.trace ++ [Ev.finished i true]) j ≤ 1
    by_cases hij : i = j
    · have h0 : finCount s.trace j = 0 := hB.hfin_run hrun0 j (by omega)
      simp only [finCount_append, finCount_finished, if_pos hij]
      omega
    · simp only [finCount_append, finCount_finished, if_neg hij]
      have := hf j
      omega

theorem invFin_init (seq : List Desc) (hc : Bool) : InvFin (runnerStart seq (initS hc)) := by
  intro j
  show finCount (advanceToNext _).trace j ≤ 1
  rw [adv_finCount]
  exact Nat.zero_le 1

theorem invFin_steps (seq : List Desc) (hc : Bool) :
    ∀ (ops : List Op) (s : RState), InvB seq hc s → InvFin s →
      stopsOk s ops = true → InvFin (ops.foldl step s)
  | [], _, _, hf, _ => hf
  | op :: rest, s, hB, hf, hok => by
      simp only [stopsOk, Bool.and_eq_true] at hok
      refine invFin_steps seq hc rest (step s op) ?_ ?_ hok.2
      · cases op with
        | update dt env => exact invB_update hB dt env
        | signal ev p => exact invB_signal hB ev p
        | stop => exact invB_stop hB
      · cases op with
        | update dt env => exact invFin_update hB hf dt env
        | signal ev p => exact invFin_signal hf ev p
        | stop => exact invFin_stop hB hf (by simpa using hok.1)

/-- Whole-run version of `InvFin` under the stop discipline. -/
theorem invFin_run (seq : List Desc) (hc : Bool) (ops : List Op)
    (hok : stopsOk (runnerStart seq (initS hc)) ops = true) :
    InvFin (runSeq seq hc ops) :=
  invFin_steps seq hc ops _ (invB_init seq hc) (invFin_init seq hc) hok

/-! ### Claim C1 -/

/-- C1 counterexample: for the single-beat sequence `[wait(1)]`, one
`update(1.0)` completes the run naturally (one `finish`), and a subsequent
`stop()` calls `finish` on the same beat a second time, because
`advanceToNext` leaves `activeBeat` pointing at the finished beat.  So the
claim that no beat is ever finished twice — "including the case where
stop() is invoked after the sequence has already completed naturally" — is
false on the code. -/
theorem claim_C1_cex :
    startCount (runSeq [waitOne] false [Op.update 1 env0, Op.stop]).trace 0 = 1 ∧
    finCount (runSeq [waitOne] false [Op.update 1 env0, Op.stop]).trace 0 = 2 := by
  with_unfolding_all exact ⟨rfl, rfl⟩

/-- C1 (amended): in every run in which `stop()` is never issued after the
run has already ended (each `stop` happens while `isRunning` or with no
stored beat), every started beat index is started at most once, finished at
most as often as started, and — once the runner is no longer running —
finished exactly as often as started: `finish` is called exactly once per
started beat. -/
theorem claim_C1_amended (seq : List Desc) (hc : Bool) (ops : List Op)
    (hok : stopsOk (runnerStart seq (initS hc)) ops = true) :
    ∀ i, startCount (runSeq seq hc ops).trace i ≤ 1 ∧
      finCount (runSeq seq hc ops).trace i ≤ startCount (runSeq seq hc ops).trace i ∧
      ((runSeq seq hc ops).runner.isRunning = false →
        finCount (runSeq seq hc ops).trace i = startCount (runSeq seq hc ops).trace i) := by
  intro i
  have hB := invB_run seq hc ops
  have hF := invFin_run seq hc ops hok
  have hs1 := hB.hstart_le i
  have hf1 := hF i
  refine ⟨hs1, ?_, ?_⟩
  · rcases Nat.eq_zero_or_pos (finCount (runSeq seq hc ops).trace i) with h0 | h0
    · omega
    · have := hB.hfs i h0
      omega
  · intro hend
    rcases Nat.eq_zero_or_pos (startCount (runSeq seq hc ops).trace i) with h0 | h0
    · rcases Nat.eq_zero_or_pos (finCount (runSeq seq hc ops).trace i) with h2 | h2
      · omega
      · have := hB.hfs i h2
        omega
    · have := hB.hsf_end hend i h0
      omega

/-- C1 witness: the amended statement applied to the run `[wait(1)]` with
one `update(0.5)` and then a `stop` while still running. -/
theorem claim_C1_witness :
    stopsOk (runnerStart [waitOne] (initS false)) [Op.update (1/2) env0, Op.stop] = true ∧
    ∀ i, startCount (runSeq [waitOne] false [Op.update (1/2) env0, Op.stop]).trace i ≤ 1 ∧
      finCount (runSeq [waitOne] false [Op.update (1/2) env0, Op.stop]).trace i ≤
        startCount (runSeq [waitOne] false [Op.update (1/2) env0, Op.stop]).trace i ∧
      ((runSeq [waitOne] false [Op.update (1/2) env0, Op.stop]).runner.isRunning = false →
        finCount (runSeq [waitOne] false [Op.update (1/2) env0, Op.stop]).trace i =
          startCount (runSeq [waitOne] false [Op.update (1/2) env0, Op.stop]).trace i) :=
  ⟨by with_unfolding_all rfl,
   claim_C1_amended [waitOne] false [Op.update (1/2) env0, Op.stop]
     (by with_unfolding_all rfl)⟩

/-! ### Claim C2 -/

/-- C2: with a completion callback attached, in any run: the callback fires
at most once; when all N descriptors have completed naturally, the runner
is no longer running and the callback has fired exactly once; while fewer
than N natural completions have happened (in particular after an early
`stop`), it has not fired at all. -/
theorem claim_C2 (seq : List Desc) (ops : List Op) :
    compCount (runSeq seq true ops).trace ≤ 1 ∧
    (natCount (runSeq seq true ops).trace = seq.length →
      (runSeq seq true ops).runner.isRunning = false ∧
        compCount (runSeq seq true ops).trace = 1) ∧
    (natCount (runSeq seq true ops).trace < seq.length →
      compCount (runSeq seq true ops).trace = 0) := by
  have hB := invB_run seq true ops
  have hidx := hB.hidx
  have hcomp := hB.hcomp
  have hle := hB.hle
  refine ⟨?_, ?_, ?_⟩
  · rw [hcomp]
    split <;> omega
  · intro hN
    constructor
    · cases hr : (runSeq seq true ops).runner.isRunning with
      | false => rfl
      | true =>
          exfalso
          have := (hB.hrun hr).1
          omega
    · rw [hcomp, if_pos ⟨rfl, by omega⟩]
  · intro hlt
    rw [hcomp, if_neg]
    rintro ⟨-, hge⟩
    omega

/-- C2 witness: `[wait(1)]` driven by one `update(1.0)`: one natural
completion, after which the runner stopped and the callback fired once. -/
theorem claim_C2_witness :
    natCount (runSeq [waitOne] true [Op.update 1 env0]).trace = 1 ∧
    ((runSeq [waitOne] true [Op.update 1 env0]).runner.isRunning = false ∧
      compCount (runSeq [waitOne] true [Op.update 1 env0]).trace = 1) :=
  ⟨by with_unfolding_all rfl,
   (claim_C2 [waitOne] [Op.update 1 env0]).2.1 (by with_unfolding_all rfl)⟩

/-! ### Claim C5 -/

/-- C5 counterexample: run `[show_choice]`, signal "choice_made", update
(the run completes naturally), then signal again.  The final signal is
delivered to beat 0 although it has already been finished: `advanceToNext`
never cleared `activeBeat`, so `signal` still reaches the stale beat.  The
claimed property "the signal reaches only the currently active (started,
not yet finished) beat" is therefore false on the code. -/
theorem claim_C5_cex :
    signalsOnlyActive (runSeq [showChoiceDesc] true
      [Op.signal "choice_made" none, Op.update 1 env0,
        Op.signal "choice_made" none]).trace [] = false := by
  with_unfolding_all rfl

/-- C5 (amended): after the run has ended — naturally or via stop — a
`signal` call changes neither the runner state nor the world, even though
after a natural end it still invokes the handler of the stale finished beat
(every finished beat is a fixed point of its `onSignal`); and when the
active beat has no `onSignal` handler, `signal` is the identity. -/
theorem claim_C5_amended (seq : List Desc) (hc : Bool) (ops : List Op)
    (ev : String) (p : Option String) :
    ((runSeq seq hc ops).runner.isRunning = false →
      (stepSignal ev p (runSeq seq hc ops)).runner = (runSeq seq hc ops).runner ∧
      (stepSignal ev p (runSeq seq hc ops)).world = (runSeq seq hc ops).world) ∧
    (∀ i b, (runSeq seq hc ops).runner.activeBeat = some (i, b) → b.hasOnSignal = false →
      stepSignal ev p (runSeq seq hc ops) = runSeq seq hc ops) := by
  have hB := invB_run seq hc ops
  constructor
  · intro hend
    rcases hB.hstale hend with hnone | ⟨i, b, hab, hin, -, -⟩
    · simp [stepSignal, hnone]
    · by_cases hsig : b.hasOnSignal = true
      · simp only [stepSignal, hab, hsig, if_true]
        constructor
        · rw [hin ev p, ← hab]
        · trivial
      · simp [stepSignal, hab, hsig]
  · intro i b hab hsig
    simp [stepSignal, hab, hsig]

/-- C5 witness: `[wait(1)]` completed naturally by one `update(1.0)`; a
subsequent signal leaves runner and world unchanged. -/
theorem claim_C5_witness :
    (runSeq [waitOne] false [Op.update 1 env0]).runner.isRunning = false ∧
    ((stepSignal "choice_made" none (runSeq [waitOne] false [Op.update 1 env0])).runner =
        (runSeq [waitOne] false [Op.update 1 env0]).runner ∧
      (stepSignal "choice_made" none (runSeq [waitOne] false [Op.update 1 env0])).world =
        (runSeq [waitOne] false [Op.update 1 env0]).world) :=
  ⟨by with_unfolding_all rfl,
   (claim_C5_amended [waitOne] false [Op.update 1 env0] "choice_made" none).1
     (by with_unfolding_all rfl)⟩

/-! ### Claim C3 -/

/-- C3: evaluating the code at the failing input.  The Wait constructor is
`this.duration = data.duration || 1.0`; since `0` is falsy in JS, a
descriptor with `duration: 0` yields a beat with duration 1.0, and its
first `update` (with dt = 0 or dt = 0.5) returns not-done — contradicting
the claim that a duration-0 Wait completes on the first update for any
dt ≥ 0.  (The general half of the claim does hold: a Wait reports done
exactly when elapsed ≥ its *constructed* duration, which here is 1.0.) -/
theorem claim_C3_bug :
    WaitBeat.init waitZero = Beat.wait 1 0 ∧
    (Beat.update (WaitBeat.init waitZero) 0 env0 w0).2.2 = false ∧
    (Beat.update (WaitBeat.init waitZero) (1/2) env0 w0).2.2 = false := by
  with_unfolding_all exact ⟨rfl, rfl, rfl⟩

/-! ### Claim C4 -/

/-- C4: evaluating the code at the failing input.  The factory default
branch does substitute a Wait beat plus a diagnostic for the unknown tag
"bogus", but `new WaitBeat({duration: 0})` comes out with duration 1.0 (the
`||` default), so after two `update(0.5)` cycles the sequence
`[{type:"bogus"}, wait(0)]` is still running with zero completions —
contradicting "the sequence completes after two update cycles". -/
theorem claim_C4_bug :
    createBeat bogusDesc = (Beat.wait 1 0, true) ∧
    (runSeq [bogusDesc, waitZero] false
      [Op.update (2/5) env0, Op.update (2/5) env0]).runner.isRunning = true ∧
    natCount (runSeq [bogusDesc, waitZero] false
      [Op.update (2/5) env0, Op.update (2/5) env0]).trace = 0 := by
  with_unfolding_all exact ⟨rfl, rfl, rfl⟩

/-! ### Claim C7 -/

/-- C7: for the single-beat sequence
`[camera_move(from=(0,0,0), to=(0,0,10), duration=2, easing="linear")]`:
after one `update(1.0)` the camera sits at z = 5 and the run continues;
after a second `update(1.0)` the camera sits at z = 10, the beat has
completed naturally (one natural finish recorded) and the run has ended. -/
theorem claim_C7 :
    (runSeq [cmLinear] false [Op.update 1 env0]).world.cameraPos = ⟨0, 0, 5⟩ ∧
    (runSeq [cmLinear] false [Op.update 1 env0]).runner.isRunning = true ∧
    (runSeq [cmLinear] false [Op.update 1 env0, Op.update 1 env0]).world.cameraPos = ⟨0, 0, 10⟩ ∧
    natCount (runSeq [cmLinear] false [Op.update 1 env0, Op.update 1 env0]).trace = 1 ∧
    (runSeq [cmLinear] false [Op.update 1 env0, Op.update 1 env0]).runner.isRunning = false := by
  with_unfolding_all exact ⟨rfl, rfl, rfl, rfl, rfl⟩

/-! ### Claim C9 -/

theorem adv_congr (s t : RState) (hr : s.runner = t.runner) (hw : s.world = t.world) :
    (advanceToNext s).runner = (advanceToNext t).runner ∧
      (advanceToNext s).world = (advanceToNext t).world := by
  by_cases hlt : s.runner.currentIndex < s.runner.beats.length
  · have hlt2 : t.runner.currentIndex < t.runner.beats.length := by
      rw [← hr]
      exact hlt
    simp [advanceToNext, dif_pos hlt, dif_pos hlt2, hr, hw]
  · have hlt2 : ¬ t.runner.currentIndex < t.runner.beats.length := by
      rw [← hr]
      exact hlt
    simp [advanceToNext, dif_neg hlt, dif_neg hlt2, hr, hw]

/-- C9: after `stop()` the runner is not running, `activeBeat` is cleared,
the "level-ui" container is empty (so the DOM element of an active text bubble
no longer exists — `finish` was routed to the active beat, as the recorded
trace shows), and calling `start` with any fresh descriptor list produces
exactly the runner state and world that a freshly constructed runner (with
the same hosted `onComplete` assignment) would produce from the same
world. -/
theorem claim_C9 (s : RState) (seq : List Desc) :
    (stepStop s).runner.isRunning = false ∧
    (stepStop s).runner.activeBeat = none ∧
    (stepStop s).world.levelUI = [] ∧
    (∀ i b, s.runner.activeBeat = some (i, b) →
      (stepStop s).trace = s.trace ++ [Ev.finished i true]) ∧
    (runnerStart seq (stepStop s)).runner =
      (runnerStart seq (freshWith s.runner.hasOnComplete (stepStop s).world)).runner ∧
    (runnerStart seq (stepStop s)).world =
      (runnerStart seq (freshWith s.runner.hasOnComplete (stepStop s).world)).world := by
  refine ⟨rfl, rfl, rfl, ?_, ?_, ?_⟩
  · intro i b hab
    simp [stepStop, hab]
  · refine (adv_congr _ _ ?_ ?_).1
    · rfl
    · rfl
  · refine (adv_congr _ _ ?_ ?_).2
    · rfl
    · rfl

/-- C9 witness: a run of `[text_bubble]` stopped while the bubble is on
screen: the container is empty afterwards and the `finish` of the bubble beat
was invoked by `stop`. -/
theorem claim_C9_witness :
    (stepStop (runSeq [bubbleDesc] false [])).world.levelUI = [] ∧
    (stepStop (runSeq [bubbleDesc] false [])).trace =
      (runSeq [bubbleDesc] false []).trace ++ [Ev.finished 0 true] :=
  ⟨(claim_C9 (runSeq [bubbleDesc] false []) []).2.2.1,
   (claim_C9 (runSeq [bubbleDesc] false []) []).2.2.2.1 0 (Beat.textBubble 3 0 (some 0))
     (by with_unfolding_all rfl)⟩

/-! ### Claim C8 -/

theorem c8_inv (hc : Bool) : ∀ (ops : List Op), ops.all c8ok = true →
    ∀ s : RState, s.runner = R0 hc → (ops.foldl step s).runner = R0 hc
  | [], _, _, hs => hs
  | op :: rest, hall, s, hs => by
      simp only [List.all_cons, Bool.and_eq_true] at hall
      refine c8_inv hc rest hall.2 (step s op) ?_
      have hab : s.runner.activeBeat = some (0, Beat.showChoice true) := by rw [hs]; rfl
      have hrun : s.runner.isRunning = true := by rw [hs]; rfl
      cases op with
      | update dt env =>
          simp only [step, stepUpdate, hab, hrun, if_true, Beat.update, Bool.not_true,
            if_false, Bool.false_eq_true]
          rw [hs]
          rfl
      | signal ev p =>
          have hne : ¬ ev = "choice_made" := by
            have := hall.1
            simp [c8ok] at this
            exact this
          simp only [step, stepSignal, hab, Beat.hasOnSignal, if_true]
          rw [hs]
          simp [R0, Beat.onSignal, hne]
      | stop =>
          exfalso
          have := hall.1
          simp [c8ok] at this

/-- C8: for the sequence `[show_choice]`, any number of `update` calls with
any dt, interleaved with signals whose event name is not "choice_made",
leaves the run going with the beat still waiting (update always returns
not-done); then one `signal("choice_made", _)` followed by one `update`
ends the run with one natural completion. -/
theorem claim_C8 (hc : Bool) (ops : List Op) (hall : ops.all c8ok = true)
    (dt : ℚ) (env : Env) (p : Option String) :
    (runSeq [showChoiceDesc] hc ops).runner.isRunning = true ∧
    (runSeq [showChoiceDesc] hc ops).runner.activeBeat = some (0, Beat.showChoice true) ∧
    (stepUpdate dt env (stepSignal "choice_made" p
      (runSeq [showChoiceDesc] hc ops))).runner.isRunning = false ∧
    natCount (stepUpdate dt env (stepSignal "choice_made" p
      (runSeq [showChoiceDesc] hc ops))).trace = 1 := by
  have h0 : (runnerStart [showChoiceDesc] (initS hc)).runner = R0 hc := by
    with_unfolding_all rfl
  have hrunner : (runSeq [showChoiceDesc] hc ops).runner = R0 hc :=
    c8_inv hc ops hall _ h0
  have hB := invB_run [showChoiceDesc] hc ops
  have hnc : natCount (runSeq [showChoiceDesc] hc ops).trace = 0 := by
    have := hB.hidx
    rw [hrunner] at this
    exact this.symm
  have hab : (runSeq [showChoiceDesc] hc ops).runner.activeBeat
      = some (0, Beat.showChoice true) := by rw [hrunner]; rfl
  have hsig : stepSignal "choice_made" p (runSeq [showChoiceDesc] hc ops) =
      { runner := { (runSeq [showChoiceDesc] hc ops).runner with
          activeBeat := some (0, Beat.showChoice false) }
        world := (runSeq [showChoiceDesc] hc ops).world
        trace := (runSeq [showChoiceDesc] hc ops).trace ++ [Ev.signalDelivered 0 "choice_made"] } := by
    simp [stepSignal, hab, Beat.hasOnSignal, Beat.onSignal]
  have hstep : stepUpdate dt env (stepSignal "choice_made" p (runSeq [showChoiceDesc] hc ops)) =
      advanceToNext
        { runner := { beats := [showChoiceDesc], currentIndex := 1, activeBeat := some (0, Beat.showChoice false), isRunning := true, hasOnComplete := hc }
          world := (runSeq [showChoiceDesc] hc ops).world
          trace := (((runSeq [showChoiceDesc] hc ops).trace ++
            [Ev.signalDelivered 0 "choice_made"]) ++ [Ev.updated 0]) ++ [Ev.finished 0 false] } := by
    rw [hsig]
    simp [stepUpdate, hrunner, R0, Beat.update, Beat.finish]
  have hnc2 : List.countP isNatFin (runSeq [showChoiceDesc] hc ops).trace = 0 := hnc
  refine ⟨by rw [hrunner]; rfl, hab, ?_, ?_⟩
  · rw [hstep]
    simp [advanceToNext]
  · rw [hstep]
    simp [advanceToNext, natCount, List.countP_append, List.countP_cons, isNatFin, hnc2]

/-- C8 witness: two allowed operations (an update and a "foo" signal)
leave the beat waiting; then signal "choice_made" plus one update ends
the run. -/
theorem claim_C8_witness :
    ([Op.update 1 env0, Op.signal "foo" none]).all c8ok = true ∧
    ((runSeq [showChoiceDesc] true [Op.update 1 env0, Op.signal "foo" none]).runner.isRunning = true ∧
     (runSeq [showChoiceDesc] true [Op.update 1 env0,
        Op.signal "foo" none]).runner.activeBeat = some (0, Beat.showChoice true) ∧
     (stepUpdate 1 env0 (stepSignal "choice_made" none (runSeq [showChoiceDesc] true
        [Op.update 1 env0, Op.signal "foo" none]))).runner.isRunning = false ∧
     natCount (stepUpdate 1 env0 (stepSignal "choice_made" none (runSeq [showChoiceDesc] true
        [Op.update 1 env0, Op.signal "foo" none]))).trace = 1) :=
  ⟨by with_unfolding_all rfl,
   claim_C8 true [Op.update 1 env0, Op.signal "foo" none]
     (by with_unfolding_all rfl) 1 env0 none⟩

/-! ### Claim C6 -/

/-- C6 counterexample: for a Reaction beat with configured duration D = 3,
after `start` and a single `update` bringing elapsed to 0.45 — exactly 15%
of D, where the claim predicts the grow phase has just peaked at scale
1.3 — the code has already finished its (absolute-time) bounce and holds
the sprite at scale 1. -/
theorem claim_C6_cex :
    Beat.scaleOf (Beat.update ((ReactionBeat.init reactionThree).start w0).1
      (9/20) env0 w0).1 = 1 ∧
    ¬ Beat.scaleOf (Beat.update ((ReactionBeat.init reactionThree).start w0).1
      (9/20) env0 w0).1 = 1.3 ∧
    (9/20 : ℚ) = 0.15 * 3 := by
  with_unfolding_all exact ⟨rfl, of_decide_eq_true rfl, rfl⟩

/-- C6 (amended): the Reaction scale curve uses absolute times, not
fractions of the configured duration D: the sprite grows linearly to 1.3×
over the first 0.15 s, settles linearly back to 1.0× by 0.3 s, holds at
1.0 (code bobs the sprite position meanwhile), shrinks linearly to 0 over
the final 0.2 s, stays at 0 past D, and the beat reports done exactly when
elapsed reaches D.  (The claimed percentages agree with the code only when
D = 1.) -/
theorem claim_C6_amended (D e sc dt : ℚ) (env : Env) (w : World) :
    (e + dt < 0.15 → e + dt ≤ D - 0.2 →
      Beat.scaleOf (Beat.update (Beat.reaction D e sc) dt env w).1 = 26/3 * (e + dt)) ∧
    (0.15 ≤ e + dt → e + dt < 0.3 → e + dt ≤ D - 0.2 →
      Beat.scaleOf (Beat.update (Beat.reaction D e sc) dt env w).1 = 1.3 - 2 * (e + dt - 0.15)) ∧
    (0.3 ≤ e + dt → e + dt ≤ D - 0.2 →
      Beat.scaleOf (Beat.update (Beat.reaction D e sc) dt env w).1 = 1) ∧
    (D - 0.2 < e + dt → e + dt ≤ D →
      Beat.scaleOf (Beat.update (Beat.reaction D e sc) dt env w).1 = 5 * (D - (e + dt))) ∧
    (D < e + dt → Beat.scaleOf (Beat.update (Beat.reaction D e sc) dt env w).1 = 0) ∧
    ((Beat.update (Beat.reaction D e sc) dt env w).2.2 = true ↔ D ≤ e + dt) := by
  simp only [Beat.update, Beat.scaleOf]
  have h15 : (0.15 : ℚ) = 3/20 := by norm_num
  have h30 : (0.3 : ℚ) = 3/10 := by norm_num
  have h20 : (0.2 : ℚ) = 1/5 := by norm_num
  have h13 : (1.3 : ℚ) = 13/10 := by norm_num
  refine ⟨?_, ?_, ?_, ?_, ?_, ?_⟩
  · intro h1 h2
    rw [if_neg (by linarith), if_pos h1, h15, h13]
    ring
  · intro h1 h2 h3
    rw [if_neg (by linarith), if_neg (by linarith), if_pos h2, h15, h13]
    ring
  · intro h1 h2
    rw [if_neg (by linarith), if_neg (by linarith), if_neg (by linarith)]
  · intro h1 h2
    rw [if_pos h1]
    have hnum : (0 : ℚ) ≤ (D - (e + dt)) / 0.2 := by
      apply div_nonneg
      · linarith
      · norm_num
    rw [max_eq_right hnum, h20]
    ring
  · intro h1
    rw [if_pos (by linarith)]
    have hnum : (D - (e + dt)) / (0.2 : ℚ) ≤ 0 := by
      rw [div_nonpos_iff]
      right
      constructor
      · linarith
      · norm_num
    rw [max_eq_left hnum]
  · exact decide_eq_true_iff

/-- C6 witness: with D = 1.5 at elapsed 1 the sprite holds at scale 1. -/
theorem claim_C6_witness :
    Beat.scaleOf (Beat.update (Beat.reaction (3/2) 0 0) 1 env0 w0).1 = 1 :=
  (claim_C6_amended (3/2) 0 0 1 env0 w0).2.2.1 (by norm_num) (by norm_num)

/-! ### Claim C10 -/

/-- C10: each single `SequenceRunner.update(dt)` call on a reachable state
appends to the trace a block containing at most one beat-update event and
at most one finish event; a beat started inside the block is never updated
inside the same block (an instant beat still waits for the next frame);
and when the active beat reports done with more descriptors remaining, the
the `start` of the next beat is recorded inside this very block. -/
theorem claim_C10 (seq : List Desc) (hc : Bool) (ops : List Op) (dt : ℚ) (env : Env) :
    ∃ δ, (stepUpdate dt env (runSeq seq hc ops)).trace = (runSeq seq hc ops).trace ++ δ ∧
      δ.countP isUpdAny ≤ 1 ∧
      δ.countP isFinAny ≤ 1 ∧
      (∀ j, 0 < startCount δ j → δ.countP (isUpd j) = 0) ∧
      (∀ i b, (runSeq seq hc ops).runner.isRunning = true →
        (runSeq seq hc ops).runner.activeBeat = some (i, b) →
        (b.update dt env (runSeq seq hc ops).world).2.2 = true →
        i + 1 < seq.length → 0 < startCount δ (i + 1)) := by
  have hB := invB_run seq hc ops
  rcases hab : (runSeq seq hc ops).runner.activeBeat with _ | ⟨i, b⟩
  · refine ⟨[], by simp [stepUpdate, hab], by simp, by simp, ?_, ?_⟩
    · intro j hj
      simp [startCount] at hj
    · intro i b _ h2
      cases h2
  · cases hrun0 : (runSeq seq hc ops).runner.isRunning with
    | false =>
        refine ⟨[], by simp [stepUpdate, hab, hrun0], by simp, by simp, ?_, ?_⟩
        · intro j hj
          simp [startCount] at hj
        · intro i' b' h1
          cases h1
    | true =>
        obtain ⟨hlt, b', hab'⟩ := hB.hrun hrun0
        rw [hab] at hab'
        obtain ⟨hi, -⟩ : i = (runSeq seq hc ops).runner.currentIndex ∧ b = b' := by
          simpa using hab'
        have hlen : (runSeq seq hc ops).runner.beats = seq := hB.hseq
        cases hdone : (b.update dt env (runSeq seq hc ops).world).2.2 with
        | false =>
            refine ⟨[Ev.updated i], ?_, by simp [List.countP_cons, isUpdAny],
              by simp [List.countP_cons, isFinAny], ?_, ?_⟩
            · simp [stepUpdate, hab, hrun0, hdone]
            · intro j hj
              simp [startCount, List.countP_cons, isStart] at hj
            · intro i' b2 h1 h2 h3
              obtain ⟨hi2, hb2⟩ : i = i' ∧ b = b2 := by simpa using h2
              rw [← hb2, hdone] at h3
              cases h3
        | true =>
            by_cases hmore : (runSeq seq hc ops).runner.currentIndex + 1 <
                (runSeq seq hc ops).runner.beats.length
            · refine ⟨([Ev.updated i] ++ [Ev.finished i false]) ++
                (if (createBeat ((runSeq seq hc ops).runner.beats.get
                  ⟨(runSeq seq hc ops).runner.currentIndex + 1, by
                    simpa using hmore⟩)).2 = true then
                  [Ev.warned ((runSeq seq hc ops).runner.beats.get
                    ⟨(runSeq seq hc ops).runner.currentIndex + 1, by
                      simpa using hmore⟩).type] else []) ++
                [Ev.started ((runSeq seq hc ops).runner.currentIndex + 1)], ?_, ?_, ?_, ?_, ?_⟩
              · simp only [stepUpdate, hab, hrun0, if_true, hdone]
                rw [advanceToNext]
                simp only [dif_pos (show ((runSeq seq hc ops).runner.currentIndex + 1 <
                  ((runSeq seq hc ops)).runner.beats.length) from hmore)]
                simp [List.append_assoc]
              · split <;> simp [List.countP_append, List.countP_cons, isUpdAny]
              · split <;> simp [List.countP_append, List.countP_cons, isFinAny]
              · intro j hj
                simp only [startCount_append, startCount_updated, startCount_finished,
                  startCount_warnopt, startCount_started, Nat.zero_add, Nat.add_zero] at hj
                have hji : j = (runSeq seq hc ops).runner.currentIndex + 1 := by
                  by_cases hq : (runSeq seq hc ops).runner.currentIndex + 1 = j
                  · omega
                  · rw [if_neg hq] at hj
                    omega
                have hij : ¬ (i = j) := by omega
                split <;> simp [List.countP_append, List.countP_cons, List.countP_nil,
                  isUpd, beq_iff_eq, hij]
              · intro i' b2 h1 h2 h3 h4
                obtain ⟨hi2, -⟩ : i = i' ∧ b = b2 := by simpa using h2
                rw [← hi2, hi]
                split <;> simp [startCount, List.countP_append, List.countP_cons, isStart]
            · refine ⟨([Ev.updated i] ++ [Ev.finished i false]) ++
                (if (runSeq seq hc ops).runner.hasOnComplete = true then [Ev.completed] else []),
                ?_, ?_, ?_, ?_, ?_⟩
              · simp only [stepUpdate, hab, hrun0, if_true, hdone]
                rw [advanceToNext]
                simp only [dif_neg (show ¬ ((runSeq seq hc ops).runner.currentIndex + 1 <
                  ((runSeq seq hc ops)).runner.beats.length) from hmore)]
                simp [List.append_assoc]
              · split <;> simp [List.countP_append, List.countP_cons, isUpdAny]
              · split <;> simp [List.countP_append, List.countP_cons, isFinAny]
              · intro j hj
                rcases hcb : (runSeq seq hc ops).runner.hasOnComplete with _ | _ <;>
                  simp [startCount, List.countP_append, List.countP_cons, isStart, hcb] at hj
              · intro i' b2 h1 h2 h3 h4
                exfalso
                obtain ⟨hi2, -⟩ : i = i' ∧ b = b2 := by simpa using h2
                rw [hlen] at hmore
                omega

/-- C10 witness: the instant `scene_swap` beat, just started by
`start([scene_swap, wait])`, is not updated in the `update` call that it
would complete in only on the next frame; concretely the first update of
the run appends exactly one updated event for beat 0 and starts beat 1
without updating it. -/
theorem claim_C10_witness :
    ∃ δ, (stepUpdate 1 env0 (runSeq [{ type := "scene_swap" }, waitOne] false [])).trace =
        (runSeq [{ type := "scene_swap" }, waitOne] false []).trace ++ δ ∧
      δ.countP isUpdAny ≤ 1 ∧
      δ.countP isFinAny ≤ 1 ∧
      (∀ j, 0 < startCount δ j → δ.countP (isUpd j) = 0) ∧
      (∀ i b, (runSeq [{ type := "scene_swap" }, waitOne] false []).runner.isRunning = true →
        (runSeq [{ type := "scene_swap" }, waitOne] false []).runner.activeBeat = some (i, b) →
        (b.update 1 env0 (runSeq [{ type := "scene_swap" }, waitOne] false []).world).2.2 = true →
        i + 1 < ([{ type := "scene_swap" }, waitOne] : List Desc).length →
        0 < startCount δ (i + 1)) :=
  claim_C10 [{ type := "scene_swap" }, waitOne] false [] 1 env0
